import Mathlib

/-!
# Blinky (tut/1-blinky/phase3/blinky.c)

A shallow embedding of the bare-metal LED blinker and the proofs of the
properties stated about it.

* `unsigned` is a 32-bit word: a natural number below `WORD`, every
  arithmetic result reduced modulo `WORD`.
* The three `volatile unsigned *` globals are fixed addresses into a simulated
  memory `Nat → Nat`; every volatile access is recorded in a trace of events.
* `asm volatile("nop")` increments a counter of executed no-ops.
* `kmain` holds an unbounded loop, so it is given as a step function on program
  states (`step`), with the straight-line statements given as state
  transformers and the busy-wait loop given both as a fuelled function
  (`spin_sleep_us`) and instruction by instruction inside `step`.
-/

namespace Blinky

/-- Number of values of the C type `unsigned` on the target (32 bits). -/
def WORD : Nat := 2 ^ 32

/-- `#define GPIO_BASE (0x3F000000 + 0x200000)` -/
def GPIO_BASE : Nat := 0x3F000000 + 0x200000

/-- `volatile unsigned *GPIO_FSEL1 = (volatile unsigned *)(GPIO_BASE + 0x04);` -/
def GPIO_FSEL1 : Nat := GPIO_BASE + 0x04

/-- `volatile unsigned *GPIO_SET0 = (volatile unsigned *)(GPIO_BASE + 0x1C);` -/
def GPIO_SET0 : Nat := GPIO_BASE + 0x1C

/-- `volatile unsigned *GPIO_CLR0 = (volatile unsigned *)(GPIO_BASE + 0x28);` -/
def GPIO_CLR0 : Nat := GPIO_BASE + 0x28

/-- Observable events of a run: volatile reads and writes of memory-mapped
words, and calls of the delay primitive with the requested milliseconds. -/
inductive Event where
  | load (addr : Nat)
  | store (addr val : Nat)
  | sleep_ms (ms : Nat)
  deriving DecidableEq

/-- The simulated hardware: the memory-mapped words, the events so far, and
the number of `nop` instructions executed so far. -/
structure Machine where
  mem : Nat → Nat
  trace : List Event
  nops : Nat

/-- A machine with every word zero, no event and no `nop` so far. -/
def Machine.reset : Machine :=
  ⟨fun _ => 0, [], 0⟩

/-- A machine like `Machine.reset` whose function-select word holds `v`. -/
def Machine.with_fsel1 (v : Nat) : Machine :=
  ⟨Function.update (fun _ => 0) GPIO_FSEL1 v, [], 0⟩

/-- A volatile read `*p`: yields the word at `p` and records the access. -/
def vload (p : Nat) (m : Machine) : Nat × Machine :=
  (m.mem p, { m with trace := m.trace ++ [Event.load p] })

/-- A volatile write `*p = v`: replaces the word at `p` and records the access. -/
def vstore (p v : Nat) (m : Machine) : Machine :=
  { m with mem := Function.update m.mem p v, trace := m.trace ++ [Event.store p v] }

/-- Line 20 of `kmain`: `*GPIO_FSEL1 |= (1 << 18);`, a volatile read of the
word, a bitwise or with `1 << 18`, and a volatile write of the result. -/
def kmain_configure (m : Machine) : Machine :=
  let r := vload GPIO_FSEL1 m
  vstore GPIO_FSEL1 ((r.1 ||| (1 <<< 18)) % WORD) r.2

/-- Line 23 of `kmain`: `*GPIO_SET0 = 1 << 16;` -/
def kmain_set_high (m : Machine) : Machine :=
  vstore GPIO_SET0 ((1 <<< 16) % WORD) m

/-- Line 25 of `kmain`: `*GPIO_CLR0 = 1 << 16;` -/
def kmain_set_low (m : Machine) : Machine :=
  vstore GPIO_CLR0 ((1 <<< 16) % WORD) m

/-- One `nop` instruction: `asm volatile("nop");` -/
def nop (m : Machine) : Machine :=
  { m with nops := m.nops + 1 }

/-- The `for` loop of `spin_sleep_us`, entered at its test with counter `i`:
`for (...; i < us * 6; i++) { asm volatile("nop"); }`. The product and the
increment are `unsigned`, hence reduced modulo `WORD`. Each unit of fuel pays
for one evaluation of the test; `none` means the fuel ran out. -/
def spin_sleep_us_loop (us : Nat) : Nat → Nat → Machine → Option Machine
  | 0, _, _ => none
  | fuel + 1, i, m =>
    if i < (us * 6) % WORD then
      spin_sleep_us_loop us fuel ((i + 1) % WORD) (nop m)
    else
      some m

/-- `static void spin_sleep_us(unsigned int us)`: the loop started at `i = 0`.
The test is evaluated at most `WORD` times, so `WORD` units of fuel are given. -/
def spin_sleep_us (us : Nat) (m : Machine) : Option Machine :=
  spin_sleep_us_loop us WORD 0 m

/-- `static void spin_sleep_ms(unsigned int ms) { spin_sleep_us(ms * 1000); }` -/
def spin_sleep_ms (ms : Nat) (m : Machine) : Option Machine :=
  spin_sleep_us ((ms * 1000) % WORD) m

/-- The record, in the trace, of a call `spin_sleep_ms(ms)`. -/
def sleep_call (ms : Nat) (m : Machine) : Machine :=
  { m with trace := m.trace ++ [Event.sleep_ms ms] }

/-- Lines 23 to 26 of `kmain`, the body of the `while` loop run to its end:
set the pin, sleep, clear the pin, sleep. `none` if a sleep does not return. -/
def kmain_loop_body (m : Machine) : Option Machine :=
  (spin_sleep_ms 1000 (sleep_call 1000 (kmain_set_high m))).bind fun m2 =>
    spin_sleep_ms 1000 (sleep_call 1000 (kmain_set_low m2))

/-- The first `n` iterations of the `while` loop of `kmain`. -/
def kmain_iterations : Nat → Machine → Option Machine
  | 0, m => some m
  | n + 1, m => (kmain_loop_body m).bind (kmain_iterations n)

/-- The number of `nop` iterations executed by a call `spin_sleep_ms(ms)`,
`none` if the call does not return. -/
def nop_iterations (ms : Nat) : Option Nat :=
  (spin_sleep_ms ms Machine.reset).map Machine.nops

/-- The 3-bit mode field of the `k`-th pin served by a function-select word. -/
def fsel_field (r k : Nat) : Nat :=
  (r >>> (3 * k)) % 8

/-- Program points of `kmain`, one per statement of the source. -/
inductive KLoc where
  /-- line 20: the configure statement -/
  | configure
  /-- line 22: the test of `while(1)` -/
  | loop_test
  /-- line 23: `*GPIO_SET0 = 1 << 16;` -/
  | set_high
  /-- line 24: `spin_sleep_ms(1000);` -/
  | sleep_high
  /-- line 25: `*GPIO_CLR0 = 1 << 16;` -/
  | set_low
  /-- line 26: `spin_sleep_ms(1000);` -/
  | sleep_low
  /-- line 28: the closing brace of `kmain`, after the loop -/
  | fall_off
  deriving DecidableEq

/-- Program points of the `for` loop of `spin_sleep_us`. -/
inductive ULoc where
  /-- the test `i < us * 6` -/
  | test
  /-- the body `asm volatile("nop");` -/
  | body
  /-- the increment `i++` -/
  | incr
  deriving DecidableEq

/-- The point of the `for` loop reached `k` steps after its first test, when
the loop has not ended: test, body, increment, in turn. -/
def ULoc.of_phase : Nat → ULoc
  | 0 => ULoc.test
  | 1 => ULoc.body
  | _ => ULoc.incr

/-- Where control is: in `kmain`; at the body of `spin_sleep_ms` called with
`ms`; in the loop of `spin_sleep_us` with arguments and locals `us`, `i`; or
back in the caller of `kmain`. A callee remembers the point `ret` of `kmain`
at which execution resumes when it returns. -/
inductive Control where
  | kmain (pc : KLoc)
  | sleep_ms (ret : KLoc) (ms : Nat)
  | sleep_us (ret : KLoc) (us i : Nat) (pc : ULoc)
  | returned
  deriving DecidableEq

/-- A program state: the control point and the simulated hardware. -/
structure State where
  ctl : Control
  hw : Machine

/-- The controlling expression of `while(1)`. -/
def while_condition : Int := 1

/-- The call `spin_sleep_ms(1000)` of lines 24 and 26, seen from `kmain`:
control moves to the callee with the call recorded, to resume at `ret`. -/
def call_sleep (ret : KLoc) (m : Machine) : State :=
  ⟨Control.sleep_ms ret 1000, sleep_call 1000 m⟩

/-- One step of the program. `none` exactly in the state `returned`, the only
terminal state: `kmain` has handed control back to the startup code. When the
test of the `for` loop fails, `spin_sleep_us` and then `spin_sleep_ms` return,
neither with anything left to do, which is one step back to `kmain`. -/
def step (s : State) : Option State :=
  match s.ctl with
  | Control.kmain KLoc.configure => some ⟨Control.kmain KLoc.loop_test, kmain_configure s.hw⟩
  | Control.kmain KLoc.loop_test =>
    if while_condition ≠ 0 then some ⟨Control.kmain KLoc.set_high, s.hw⟩
    else some ⟨Control.kmain KLoc.fall_off, s.hw⟩
  | Control.kmain KLoc.set_high => some ⟨Control.kmain KLoc.sleep_high, kmain_set_high s.hw⟩
  | Control.kmain KLoc.sleep_high => some (call_sleep KLoc.set_low s.hw)
  | Control.kmain KLoc.set_low => some ⟨Control.kmain KLoc.sleep_low, kmain_set_low s.hw⟩
  | Control.kmain KLoc.sleep_low => some (call_sleep KLoc.loop_test s.hw)
  | Control.kmain KLoc.fall_off => some ⟨Control.returned, s.hw⟩
  | Control.sleep_ms ret ms => some ⟨Control.sleep_us ret ((ms * 1000) % WORD) 0 ULoc.test, s.hw⟩
  | Control.sleep_us ret us i ULoc.test =>
    if i < (us * 6) % WORD then some ⟨Control.sleep_us ret us i ULoc.body, s.hw⟩
    else some ⟨Control.kmain ret, s.hw⟩
  | Control.sleep_us ret us i ULoc.body => some ⟨Control.sleep_us ret us i ULoc.incr, nop s.hw⟩
  | Control.sleep_us ret us i ULoc.incr =>
    some ⟨Control.sleep_us ret us ((i + 1) % WORD) ULoc.test, s.hw⟩
  | Control.returned => none

/-- The state after `k` steps from `s`, `none` if the program stopped before. -/
def run : Nat → State → Option State
  | 0, s => some s
  | k + 1, s => (step s).bind (run k)

/-- The state in which the startup code enters `kmain`. -/
def kmain_entry (m : Machine) : State :=
  ⟨Control.kmain KLoc.configure, m⟩

/-- The points of `kmain` inside the `while` loop (lines 22 to 27). -/
def KLoc.in_loop : KLoc → Bool
  | KLoc.loop_test => true
  | KLoc.set_high => true
  | KLoc.sleep_high => true
  | KLoc.set_low => true
  | KLoc.sleep_low => true
  | _ => false

/-- Control is inside the `while` loop of `kmain`: at one of its statements,
or in a delay call that resumes at one of them. -/
def Control.in_loop : Control → Bool
  | Control.kmain pc => pc.in_loop
  | Control.sleep_ms ret _ => ret.in_loop
  | Control.sleep_us ret _ _ _ => ret.in_loop
  | Control.returned => false

/-- The events of one iteration of the loop of `kmain`. -/
def blink_cycle : List Event :=
  [Event.store GPIO_SET0 (1 <<< 16), Event.sleep_ms 1000,
   Event.store GPIO_CLR0 (1 <<< 16), Event.sleep_ms 1000]

/-- The state of control `k` steps into a call `spin_sleep_ms(ms)` that is
still running: at the entry for `k = 0`, then in the loop of `spin_sleep_us`
with counter `(k - 1) / 3`. -/
def sleep_control (ret : KLoc) (ms : Nat) : Nat → Control
  | 0 => Control.sleep_ms ret ms
  | k + 1 => Control.sleep_us ret ((ms * 1000) % WORD) (k / 3) (ULoc.of_phase (k % 3))

/-- The number of steps of one iteration of the loop of `kmain`: the test
of `while`, the two writes, and twice a call, the entry of `spin_sleep_ms`,
three steps for each of the 6000000 iterations and the last test. -/
def cycle_steps : Nat :=
  1 + 2 * (1 + 1 + 1 + 3 * 6000000 + 1)

/-! ## The configure statement (line 20) -/

theorem fsel_field_six_eq_one_iff (r : Nat) :
    fsel_field r 6 = 1 ↔
      (r.testBit 18 = true ∧ r.testBit 19 = false ∧ r.testBit 20 = false) := by
  unfold fsel_field
  simp only [Nat.testBit_to_div_mod, Nat.shiftRight_eq_div_pow, decide_eq_true_eq,
    decide_eq_false_iff_not]
  omega

theorem kmain_configure_mem_fsel1 (m : Machine) :
    (kmain_configure m).mem GPIO_FSEL1 = (m.mem GPIO_FSEL1 ||| 2 ^ 18) % 2 ^ 32 := by
  simp [kmain_configure, vstore, vload, WORD, Nat.one_shiftLeft]

theorem kmain_configure_mem_other (m : Machine) (a : Nat) (h : a ≠ GPIO_FSEL1) :
    (kmain_configure m).mem a = m.mem a := by
  simp [kmain_configure, vstore, vload, Function.update_noteq h]

theorem kmain_configure_trace (m : Machine) :
    (kmain_configure m).trace = m.trace ++
      [Event.load GPIO_FSEL1, Event.store GPIO_FSEL1 ((m.mem GPIO_FSEL1 ||| 2 ^ 18) % 2 ^ 32)] := by
  simp [kmain_configure, vstore, vload, WORD, Nat.one_shiftLeft]

theorem kmain_configure_testBit (m : Machine) (i : Nat) :
    ((kmain_configure m).mem GPIO_FSEL1).testBit i =
      (decide (i < 32) && ((m.mem GPIO_FSEL1).testBit i || decide (18 = i))) := by
  rw [kmain_configure_mem_fsel1, Nat.testBit_mod_two_pow, Nat.testBit_or, Nat.testBit_two_pow]

/-- C1, the code at a function-select word whose pin-16 field is `010`
(bit 19 set, an alternate function): after the configure statement the field
of pin 16 is `011`, not the output encoding `001`, so the field is not `001`
for every 32-bit pre-call word. -/
theorem kmain_configure_alt_function_field :
    (Machine.with_fsel1 0x80000).mem GPIO_FSEL1 = 0x80000 ∧
    (kmain_configure (Machine.with_fsel1 0x80000)).mem GPIO_FSEL1 = 0xC0000 ∧
    fsel_field ((kmain_configure (Machine.with_fsel1 0x80000)).mem GPIO_FSEL1) 6 = 3 ∧
    ¬ (∀ m : Machine, m.mem GPIO_FSEL1 < WORD →
        fsel_field ((kmain_configure m).mem GPIO_FSEL1) 6 = 1) := by
  refine ⟨by decide, by decide, by decide, fun h => ?_⟩
  have h1 := h (Machine.with_fsel1 0x80000) (by decide)
  revert h1
  decide

/-- C2: for every 32-bit pre-call word of the function-select register, the
configure statement leaves every bit outside bits 18 to 20 as it was, leaves
every other word of the memory as it was, and its only accesses are one read
and one write of the function-select register. -/
theorem kmain_configure_frame (m : Machine) (h : m.mem GPIO_FSEL1 < WORD) :
    (∀ i, i < 18 ∨ 20 < i →
      ((kmain_configure m).mem GPIO_FSEL1).testBit i = (m.mem GPIO_FSEL1).testBit i) ∧
    (∀ a, a ≠ GPIO_FSEL1 → (kmain_configure m).mem a = m.mem a) ∧
    (∃ w, (kmain_configure m).trace =
      m.trace ++ [Event.load GPIO_FSEL1, Event.store GPIO_FSEL1 w]) := by
  refine ⟨fun i hi => ?_, fun a ha => kmain_configure_mem_other m a ha,
    ⟨_, kmain_configure_trace m⟩⟩
  rw [kmain_configure_testBit]
  have h18 : ¬ (18 = i) := by omega
  by_cases h32 : i < 32
  · simp [h32, h18]
  · have hlt : m.mem GPIO_FSEL1 < 2 ^ i :=
      lt_of_lt_of_le h (Nat.pow_le_pow_right (by decide) (by omega))
    simp [h32, Nat.testBit_lt_two_pow hlt]

theorem kmain_configure_frame_witness :
    (∀ i, i < 18 ∨ 20 < i →
      ((kmain_configure (Machine.with_fsel1 0xFFFFFFFF)).mem GPIO_FSEL1).testBit i =
        ((Machine.with_fsel1 0xFFFFFFFF).mem GPIO_FSEL1).testBit i) ∧
    (∀ a, a ≠ GPIO_FSEL1 →
      (kmain_configure (Machine.with_fsel1 0xFFFFFFFF)).mem a =
        (Machine.with_fsel1 0xFFFFFFFF).mem a) ∧
    (∃ w, (kmain_configure (Machine.with_fsel1 0xFFFFFFFF)).trace =
      (Machine.with_fsel1 0xFFFFFFFF).trace ++
        [Event.load GPIO_FSEL1, Event.store GPIO_FSEL1 w]) :=
  kmain_configure_frame (Machine.with_fsel1 0xFFFFFFFF) (by decide)

/-- C3: the configure statement is idempotent on the memory: executed twice
in succession it leaves the function-select register, and every other word,
as one execution does. -/
theorem kmain_configure_idempotent (m : Machine) :
    (kmain_configure (kmain_configure m)).mem GPIO_FSEL1 =
      (kmain_configure m).mem GPIO_FSEL1 ∧
    (kmain_configure (kmain_configure m)).mem = (kmain_configure m).mem := by
  have key : (kmain_configure (kmain_configure m)).mem GPIO_FSEL1 =
      (kmain_configure m).mem GPIO_FSEL1 := by
    apply Nat.eq_of_testBit_eq
    intro i
    rw [kmain_configure_testBit (kmain_configure m), kmain_configure_testBit m]
    by_cases h32 : i < 32 <;> simp [h32]
  refine ⟨key, funext fun a => ?_⟩
  by_cases ha : a = GPIO_FSEL1
  · rw [ha]; exact key
  · rw [kmain_configure_mem_other _ a ha]

/-- C9: after the configure statement the mode field of pin 16 (bits 18 to
20) is the output encoding `001` exactly when bits 19 and 20 of the pre-call
word are both 0; so it is from the word 0, and it is not when bit 19 or bit 20
was set. -/
theorem kmain_configure_output_iff (m : Machine) :
    (fsel_field ((kmain_configure m).mem GPIO_FSEL1) 6 = 1 ↔
      ((m.mem GPIO_FSEL1).testBit 19 = false ∧ (m.mem GPIO_FSEL1).testBit 20 = false)) ∧
    (m.mem GPIO_FSEL1 = 0 → fsel_field ((kmain_configure m).mem GPIO_FSEL1) 6 = 1) ∧
    ((m.mem GPIO_FSEL1).testBit 19 = true ∨ (m.mem GPIO_FSEL1).testBit 20 = true →
      fsel_field ((kmain_configure m).mem GPIO_FSEL1) 6 ≠ 1) := by
  have key : fsel_field ((kmain_configure m).mem GPIO_FSEL1) 6 = 1 ↔
      ((m.mem GPIO_FSEL1).testBit 19 = false ∧ (m.mem GPIO_FSEL1).testBit 20 = false) := by
    rw [fsel_field_six_eq_one_iff]
    simp [kmain_configure_testBit]
  refine ⟨key, fun h0 => ?_, fun hb => ?_⟩
  · rw [key, h0]; simp
  · intro hf
    have h2 := key.mp hf
    rcases hb with hb | hb
    · rw [h2.1] at hb; exact Bool.noConfusion hb
    · rw [h2.2] at hb; exact Bool.noConfusion hb

theorem kmain_configure_output_iff_witness :
    fsel_field ((kmain_configure (Machine.with_fsel1 0)).mem GPIO_FSEL1) 6 = 1 ∧
    fsel_field ((kmain_configure (Machine.with_fsel1 0x100000)).mem GPIO_FSEL1) 6 ≠ 1 :=
  ⟨(kmain_configure_output_iff (Machine.with_fsel1 0)).2.1 (by decide),
   (kmain_configure_output_iff (Machine.with_fsel1 0x100000)).2.2 (Or.inr (by decide))⟩

/-! ## The pin writes (lines 23 and 25) -/

/-- C4: in every state, the set-high statement of `kmain` makes exactly one
access, a write of `1 << 16` to the set register at `0x3F20001C`, and the
set-low statement makes exactly one access, a write of `1 << 16` to the clear
register at `0x3F200028`; neither touches any other word, so set-high does not
write the clear register and set-low does not write the set register. -/
theorem kmain_set_high_low_writes (m : Machine) :
    step ⟨Control.kmain KLoc.set_high, m⟩ =
      some ⟨Control.kmain KLoc.sleep_high, kmain_set_high m⟩ ∧
    (kmain_set_high m).trace = m.trace ++ [Event.store 0x3F20001C 0x00010000] ∧
    (kmain_set_high m).mem = Function.update m.mem 0x3F20001C 0x00010000 ∧
    (kmain_set_high m).mem GPIO_CLR0 = m.mem GPIO_CLR0 ∧
    step ⟨Control.kmain KLoc.set_low, m⟩ =
      some ⟨Control.kmain KLoc.sleep_low, kmain_set_low m⟩ ∧
    (kmain_set_low m).trace = m.trace ++ [Event.store 0x3F200028 0x00010000] ∧
    (kmain_set_low m).mem = Function.update m.mem 0x3F200028 0x00010000 ∧
    (kmain_set_low m).mem GPIO_SET0 = m.mem GPIO_SET0 ∧
    GPIO_SET0 = 0x3F20001C ∧ GPIO_CLR0 = 0x3F200028 := by
  have hs : GPIO_SET0 = 0x3F20001C := by decide
  have hc : GPIO_CLR0 = 0x3F200028 := by decide
  have hv : (1 <<< 16) % WORD = 0x00010000 := by decide
  refine ⟨rfl, ?_, ?_, ?_, rfl, ?_, ?_, ?_, hs, hc⟩
  · simp only [kmain_set_high, vstore, hs, hv]
  · simp only [kmain_set_high, vstore, hs, hv]
  · simp [kmain_set_high, vstore, hs, hc]
  · simp only [kmain_set_low, vstore, hc, hv]
  · simp only [kmain_set_low, vstore, hc, hv]
  · simp [kmain_set_low, vstore, hs, hc]

/-! ## The delay primitive (lines 7 to 15) -/

theorem spin_sleep_us_loop_eq (us : Nat) :
    ∀ (fuel i : Nat) (m : Machine), i ≤ (us * 6) % WORD → (us * 6) % WORD - i < fuel →
      spin_sleep_us_loop us fuel i m =
        some { m with nops := m.nops + ((us * 6) % WORD - i) } := by
  intro fuel
  induction fuel with
  | zero => intro i m _ h; omega
  | succ fuel ih =>
    intro i m hi hfuel
    have hW : (us * 6) % WORD < WORD := Nat.mod_lt _ (by decide)
    unfold spin_sleep_us_loop
    by_cases hlt : i < (us * 6) % WORD
    · have hwrap : (i + 1) % WORD = i + 1 := Nat.mod_eq_of_lt (by omega)
      rw [if_pos hlt, hwrap, ih (i + 1) (nop m) (by omega) (by omega)]
      have : (nop m).nops + ((us * 6) % WORD - (i + 1)) = m.nops + ((us * 6) % WORD - i) := by
        simp only [nop]; omega
      simp only [this]
      rfl
    · rw [if_neg hlt]
      have : (us * 6) % WORD - i = 0 := by omega
      simp [this]

theorem spin_sleep_us_eq (us : Nat) (m : Machine) :
    spin_sleep_us us m = some { m with nops := m.nops + (us * 6) % WORD } := by
  have hW : (us * 6) % WORD < WORD := Nat.mod_lt _ (by decide)
  have h := spin_sleep_us_loop_eq us WORD 0 m (Nat.zero_le _) (by omega)
  simpa [spin_sleep_us] using h

theorem spin_sleep_ms_eq (ms : Nat) (m : Machine) :
    spin_sleep_ms ms m =
      some { m with nops := m.nops + (6 * ((1000 * ms) % 2 ^ 32)) % 2 ^ 32 } := by
  rw [spin_sleep_ms, spin_sleep_us_eq]
  simp only [WORD, Nat.mul_comm]

theorem nop_iterations_eq (ms : Nat) :
    nop_iterations ms = some ((6 * ((1000 * ms) % 2 ^ 32)) % 2 ^ 32) := by
  simp [nop_iterations, spin_sleep_ms_eq, Machine.reset]

/-! ## Runs of the step function -/

theorem run_one (s : State) : run 1 s = step s := by
  cases h : step s <;> simp [run, h]

theorem run_add (a b : Nat) (s : State) : run (a + b) s = (run a s).bind (run b) := by
  induction a generalizing s with
  | zero => simp [run]
  | succ a ih =>
    rw [Nat.succ_add]
    simp only [run]
    cases h : step s with
    | none => simp
    | some s1 => simp [ih]

theorem run_succ_of_run (k : Nat) (s t : State) (h : run k s = some t) :
    run (k + 1) s = step t := by
  rw [run_add, h, Option.some_bind, run_one]

theorem run_add_of_run (a b : Nat) (s t : State) (h : run a s = some t) :
    run (a + b) s = run b t := by
  rw [run_add, h, Option.some_bind]

/-- The whole trajectory of the loop of `spin_sleep_us` until its last test:
`k` steps after the first test the counter is `k / 3` and `(k + 1) / 3`
iterations of `nop` have been executed. -/
theorem run_sleep_us (ret : KLoc) (us : Nat) (m : Machine) :
    ∀ k, k ≤ 3 * ((us * 6) % WORD) →
      run k ⟨Control.sleep_us ret us 0 ULoc.test, m⟩ =
        some ⟨Control.sleep_us ret us (k / 3) (ULoc.of_phase (k % 3)),
          { m with nops := m.nops + (k + 1) / 3 }⟩ := by
  intro k
  induction k with
  | zero => intro _; simp [run, ULoc.of_phase]
  | succ k ih =>
    intro hk
    have hW : (us * 6) % WORD < WORD := Nat.mod_lt _ (by decide)
    rw [run_succ_of_run k _ _ (ih (by omega))]
    obtain ⟨q, hq⟩ : ∃ q, k = 3 * q ∨ k = 3 * q + 1 ∨ k = 3 * q + 2 := ⟨k / 3, by omega⟩
    rcases hq with rfl | rfl | rfl
    · have e1 : 3 * q / 3 = q := by omega
      have e2 : 3 * q % 3 = 0 := by omega
      have e3 : (3 * q + 1) / 3 = q := by omega
      have e4 : (3 * q + 1) % 3 = 1 := by omega
      have e5 : (3 * q + 1 + 1) / 3 = q := by omega
      have hlt : q < (us * 6) % WORD := by omega
      simp [step, ULoc.of_phase, e1, e2, e3, e4, e5, hlt]
    · have e1 : (3 * q + 1) / 3 = q := by omega
      have e2 : (3 * q + 1) % 3 = 1 := by omega
      have e3 : (3 * q + 1 + 1) / 3 = q := by omega
      have e4 : (3 * q + 1 + 1) % 3 = 2 := by omega
      have e5 : (3 * q + 1 + 1 + 1) / 3 = q + 1 := by omega
      simp [step, ULoc.of_phase, nop, e1, e2, e3, e4, e5, Nat.add_assoc]
    · have e1 : (3 * q + 2) / 3 = q := by omega
      have e2 : (3 * q + 2) % 3 = 2 := by omega
      have e3 : (3 * q + 2 + 1) / 3 = q + 1 := by omega
      have e4 : (3 * q + 2 + 1) % 3 = 0 := by omega
      have e5 : (3 * q + 2 + 1 + 1) / 3 = q + 1 := by omega
      have hwrap : (q + 1) % WORD = q + 1 := Nat.mod_eq_of_lt (by omega)
      simp [step, ULoc.of_phase, e1, e2, e3, e4, e5, hwrap]

/-- The whole trajectory of a call `spin_sleep_ms(ms)` before it returns. -/
theorem run_sleep_ms (ret : KLoc) (ms : Nat) (m : Machine) :
    ∀ k, k ≤ 3 * ((6 * ((1000 * ms) % 2 ^ 32)) % 2 ^ 32) + 1 →
      run k ⟨Control.sleep_ms ret ms, m⟩ =
        some ⟨sleep_control ret ms k, { m with nops := m.nops + k / 3 }⟩ := by
  intro k hk
  cases k with
  | zero => simp [run, sleep_control]
  | succ j =>
    have hN : (6 * ((1000 * ms) % 2 ^ 32)) % 2 ^ 32 = (((ms * 1000) % WORD) * 6) % WORD := by
      simp only [WORD, Nat.mul_comm]
    rw [hN] at hk
    have h1 : run 1 ⟨Control.sleep_ms ret ms, m⟩ =
        some ⟨Control.sleep_us ret ((ms * 1000) % WORD) 0 ULoc.test, m⟩ := by
      rw [run_one]; rfl
    rw [Nat.add_comm j 1, run_add_of_run 1 j _ _ h1,
      run_sleep_us ret ((ms * 1000) % WORD) m j (by omega)]
    simp only [sleep_control, Nat.add_comm 1 j]

/-- A call `spin_sleep_ms(ms)` returns to its caller after `3 * n + 2` steps,
`n` the number of `nop` iterations, in the state that `spin_sleep_ms` gives. -/
theorem run_sleep_ms_return (ret : KLoc) (ms : Nat) (m : Machine) :
    run (3 * ((6 * ((1000 * ms) % 2 ^ 32)) % 2 ^ 32) + 2) ⟨Control.sleep_ms ret ms, m⟩ =
      (spin_sleep_ms ms m).map fun m1 => ⟨Control.kmain ret, m1⟩ := by
  have hN : (6 * ((1000 * ms) % 2 ^ 32)) % 2 ^ 32 = (((ms * 1000) % WORD) * 6) % WORD := by
    simp only [WORD, Nat.mul_comm]
  have h := run_sleep_ms ret ms m (3 * ((6 * ((1000 * ms) % 2 ^ 32)) % 2 ^ 32) + 1) (le_refl _)
  rw [run_succ_of_run _ _ _ h, spin_sleep_ms_eq]
  generalize hn : (6 * ((1000 * ms) % 2 ^ 32)) % 2 ^ 32 = n at hN
  have e1 : 3 * n / 3 = n := by omega
  have e2 : 3 * n % 3 = 0 := by omega
  have e3 : (3 * n + 1) / 3 = n := by omega
  simp [sleep_control, step, ULoc.of_phase, e1, e2, e3, ← hN]

theorem kmain_loop_body_eq (m : Machine) :
    kmain_loop_body m = some
      { mem := Function.update (Function.update m.mem GPIO_SET0 (1 <<< 16)) GPIO_CLR0 (1 <<< 16)
        trace := m.trace ++ blink_cycle
        nops := m.nops + 12000000 } := by
  have hv : (1 <<< 16) % WORD = 1 <<< 16 := by decide
  have hn : (6 * ((1000 * 1000) % 2 ^ 32)) % 2 ^ 32 = 6000000 := by decide
  simp only [kmain_loop_body, spin_sleep_ms_eq, Option.some_bind, hn]
  simp only [kmain_set_high, kmain_set_low, vstore, sleep_call, blink_cycle, hv,
    Nat.add_assoc, List.append_assoc, List.singleton_append, List.cons_append, List.nil_append]

theorem run_sleep_1000 (ret : KLoc) (m : Machine) :
    run 18000002 ⟨Control.sleep_ms ret 1000, m⟩ =
      (spin_sleep_ms 1000 m).map fun m1 => ⟨Control.kmain ret, m1⟩ := by
  have hn : 3 * ((6 * ((1000 * 1000) % 2 ^ 32)) % 2 ^ 32) + 2 = 18000002 := by decide
  have h := run_sleep_ms_return ret 1000 m
  rw [hn] at h
  exact h

theorem cycle_steps_eq : cycle_steps = 3 + (18000002 + (2 + 18000002)) := by decide

theorem run_loop_head (m : Machine) :
    run 3 ⟨Control.kmain KLoc.loop_test, m⟩ =
      some ⟨Control.sleep_ms KLoc.set_low 1000, sleep_call 1000 (kmain_set_high m)⟩ := by
  simp [run, step, while_condition, call_sleep]

theorem run_loop_mid (m : Machine) :
    run 2 ⟨Control.kmain KLoc.set_low, m⟩ =
      some ⟨Control.sleep_ms KLoc.loop_test 1000, sleep_call 1000 (kmain_set_low m)⟩ := by
  simp [run, step, call_sleep]

/-- One iteration of the loop of `kmain`, step by step, ends back at the test
of `while` in the state that `kmain_loop_body` gives. -/
theorem run_loop_body (m : Machine) :
    run cycle_steps ⟨Control.kmain KLoc.loop_test, m⟩ =
      (kmain_loop_body m).map fun m1 => ⟨Control.kmain KLoc.loop_test, m1⟩ := by
  rw [cycle_steps_eq, run_add_of_run 3 _ _ _ (run_loop_head m), run_add, run_sleep_1000,
    spin_sleep_ms_eq, Option.map_some', Option.some_bind,
    run_add_of_run 2 _ _ _ (run_loop_mid _), run_sleep_1000]
  simp only [kmain_loop_body, spin_sleep_ms_eq, Option.some_bind]

theorem kmain_iterations_spec (n : Nat) : ∀ m : Machine, ∃ m1 : Machine,
    kmain_iterations n m = some m1 ∧
    run (n * cycle_steps) ⟨Control.kmain KLoc.loop_test, m⟩ =
      some ⟨Control.kmain KLoc.loop_test, m1⟩ ∧
    m1.trace = m.trace ++ (List.replicate n blink_cycle).flatten ∧
    m1.nops = m.nops + n * 12000000 := by
  induction n with
  | zero => intro m; exact ⟨m, rfl, by simp [run], by simp, by simp⟩
  | succ n ih =>
    intro m
    have hb := kmain_loop_body_eq m
    have hr := run_loop_body m
    rw [hb, Option.map_some'] at hr
    obtain ⟨m1, h1, h2, h3, h4⟩ := ih
      { mem := Function.update (Function.update m.mem GPIO_SET0 (1 <<< 16)) GPIO_CLR0 (1 <<< 16)
        trace := m.trace ++ blink_cycle
        nops := m.nops + 12000000 }
    refine ⟨m1, ?_, ?_, ?_, ?_⟩
    · rw [kmain_iterations, hb, Option.some_bind, h1]
    · rw [Nat.succ_mul, Nat.add_comm, run_add_of_run _ _ _ _ hr, h2]
    · rw [h3, List.replicate_succ, List.flatten_cons, List.append_assoc]
    · rw [h4]; simp only; omega

/-! ## The loop of `kmain` (lines 22 to 27) -/

/-- C5: for every `n` and from every state, the first `n` iterations of the
loop of `kmain` end back at the test of `while`, having appended to the trace
`n` copies of: write `1 << 16` to the set register, delay of 1000 ms, write
`1 << 16` to the clear register, delay of 1000 ms. The same holds for the run
from the entry of `kmain`, after the two accesses of the configure statement,
and the body of the loop appends these four events from whatever state. -/
theorem kmain_loop_trace (n : Nat) (m : Machine) :
    (∃ m1 : Machine,
      run (n * cycle_steps) ⟨Control.kmain KLoc.loop_test, m⟩ =
        some ⟨Control.kmain KLoc.loop_test, m1⟩ ∧
      kmain_iterations n m = some m1 ∧
      m1.trace = m.trace ++ (List.replicate n blink_cycle).flatten) ∧
    (∃ m2 : Machine,
      run (1 + n * cycle_steps) (kmain_entry m) = some ⟨Control.kmain KLoc.loop_test, m2⟩ ∧
      m2.trace = (kmain_configure m).trace ++ (List.replicate n blink_cycle).flatten) ∧
    (∀ m0 : Machine, ∃ m1 : Machine,
      kmain_loop_body m0 = some m1 ∧ m1.trace = m0.trace ++ blink_cycle) ∧
    blink_cycle =
      [Event.store 0x3F20001C 0x00010000, Event.sleep_ms 1000,
       Event.store 0x3F200028 0x00010000, Event.sleep_ms 1000] := by
  refine ⟨?_, ?_, fun m0 => ⟨_, kmain_loop_body_eq m0, rfl⟩, by decide⟩
  · obtain ⟨m1, h1, h2, h3, _⟩ := kmain_iterations_spec n m
    exact ⟨m1, h2, h1, h3⟩
  · obtain ⟨m2, _, h2, h3, _⟩ := kmain_iterations_spec n (kmain_configure m)
    have h0 : run 1 (kmain_entry m) =
        some ⟨Control.kmain KLoc.loop_test, kmain_configure m⟩ := by
      rw [run_one]; rfl
    exact ⟨m2, by rw [run_add_of_run 1 _ _ _ h0, h2], h3⟩

theorem step_in_loop (s : State)
    (h : s.ctl = Control.kmain KLoc.configure ∨ s.ctl.in_loop = true) :
    ∃ t, step s = some t ∧ t.ctl.in_loop = true := by
  obtain ⟨ctl, hw⟩ := s
  cases ctl with
  | kmain pc =>
    cases pc <;>
      simp_all [step, Control.in_loop, KLoc.in_loop, call_sleep, while_condition]
  | sleep_ms ret ms => simpa [step, Control.in_loop] using h
  | sleep_us ret us i pc =>
    cases pc
    · by_cases hlt : i < (us * 6) % WORD <;> simpa [step, Control.in_loop, hlt] using h
    · simpa [step, Control.in_loop] using h
    · simpa [step, Control.in_loop] using h
  | returned => simp [Control.in_loop] at h

theorem run_kmain_in_loop (m : Machine) (k : Nat) :
    ∃ s, run (k + 1) (kmain_entry m) = some s ∧ s.ctl.in_loop = true := by
  induction k with
  | zero =>
    rw [run_one]
    exact step_in_loop (kmain_entry m) (Or.inl rfl)
  | succ k ih =>
    obtain ⟨s, hs, hl⟩ := ih
    rw [run_succ_of_run _ _ _ hs]
    exact step_in_loop s (Or.inr hl)

theorem run_kmain_invariant (m : Machine) (k : Nat) :
    ∃ s, run k (kmain_entry m) = some s ∧
      (s.ctl = Control.kmain KLoc.configure ∨ s.ctl.in_loop = true) := by
  cases k with
  | zero => exact ⟨kmain_entry m, rfl, Or.inl rfl⟩
  | succ k =>
    obtain ⟨s, hs, hl⟩ := run_kmain_in_loop m k
    exact ⟨s, hs, Or.inr hl⟩

theorem not_returned_of_invariant (s : State)
    (h : s.ctl = Control.kmain KLoc.configure ∨ s.ctl.in_loop = true) :
    s.ctl ≠ Control.returned ∧ s.ctl ≠ Control.kmain KLoc.fall_off := by
  constructor
  · intro hc
    rw [hc] at h
    simp [Control.in_loop] at h
  · intro hc
    rw [hc] at h
    simp [Control.in_loop, KLoc.in_loop] at h

/-- C6: `kmain` never returns. After any number `k` of steps from the entry
of `kmain` the program is in a state that is not the terminal state
`returned`, nor the end of the body of `kmain`, and that has a successor
inside the `while` loop; so no state reachable from the entry is `returned`,
and each has a successor inside the loop; `returned` is the only state
without a successor. -/
theorem kmain_never_returns (m : Machine) :
    (∀ k : Nat, ∃ s, run k (kmain_entry m) = some s ∧
      s.ctl ≠ Control.returned ∧ s.ctl ≠ Control.kmain KLoc.fall_off ∧
      ∃ t, step s = some t ∧ t.ctl.in_loop = true) ∧
    (∀ s : State, (∃ k : Nat, run k (kmain_entry m) = some s) →
      s.ctl ≠ Control.returned ∧ ∃ t, step s = some t ∧ t.ctl.in_loop = true) ∧
    (∀ s : State, step s = none ↔ s.ctl = Control.returned) := by
  refine ⟨fun k => ?_, fun s hs => ?_, fun s => ?_⟩
  · obtain ⟨s, hs, hl⟩ := run_kmain_invariant m k
    exact ⟨s, hs, (not_returned_of_invariant s hl).1, (not_returned_of_invariant s hl).2,
      step_in_loop s hl⟩
  · obtain ⟨k, hk⟩ := hs
    obtain ⟨s1, hs1, hl⟩ := run_kmain_invariant m k
    rw [hk] at hs1
    cases hs1
    exact ⟨(not_returned_of_invariant s hl).1, step_in_loop s hl⟩
  · obtain ⟨ctl, hw⟩ := s
    cases ctl with
    | kmain pc => cases pc <;> simp [step, while_condition]
    | sleep_ms ret ms => simp [step]
    | sleep_us ret us i pc =>
      cases pc
      · by_cases hlt : i < (us * 6) % WORD <;> simp [step, hlt]
      · simp [step]
      · simp [step]
    | returned => simp [step]

theorem kmain_never_returns_witness :
    (kmain_entry Machine.reset).ctl ≠ Control.returned ∧
      ∃ t, step (kmain_entry Machine.reset) = some t ∧ t.ctl.in_loop = true :=
  (kmain_never_returns Machine.reset).2.1 (kmain_entry Machine.reset) ⟨0, rfl⟩

/-! ## The number of iterations of the delay -/

theorem nop_iterations_of_small (ms : Nat) (h : 6 * 1000 * ms < WORD) :
    nop_iterations ms = some (6 * 1000 * ms) := by
  rw [nop_iterations_eq]
  have h2 : 6 * 1000 * ms < 2 ^ 32 := h
  have e1 : (1000 * ms) % 2 ^ 32 = 1000 * ms := Nat.mod_eq_of_lt (by omega)
  have e2 : (6 * (1000 * ms)) % 2 ^ 32 = 6 * (1000 * ms) := Nat.mod_eq_of_lt (by omega)
  rw [e1, e2, Nat.mul_assoc]

/-- C7, as stated, fails: 715827 ≤ 715828, both 32-bit, and
`spin_sleep_ms(715827)` executes 4294962000 iterations while
`spin_sleep_ms(715828)` executes 704, because `6000 * 715828` exceeds `2^32`. -/
theorem spin_sleep_ms_not_monotone :
    (715827 : Nat) ≤ 715828 ∧ 715828 < WORD ∧
    nop_iterations 715827 = some 4294962000 ∧
    nop_iterations 715828 = some 704 ∧
    ¬ (∀ a b : Nat, a ≤ b → b < WORD → ∀ na nb : Nat,
        nop_iterations a = some na → nop_iterations b = some nb → na ≤ nb) := by
  have ha : nop_iterations 715827 = some 4294962000 := by
    rw [nop_iterations_eq]; decide
  have hb : nop_iterations 715828 = some 704 := by
    rw [nop_iterations_eq]; decide
  refine ⟨by decide, by decide, ha, hb, fun h => ?_⟩
  have hle := h 715827 715828 (by decide) (by decide) _ _ ha hb
  exact absurd hle (by decide)

/-- C7, amended: the delay is monotonic where the iteration count does not
wrap. For `a ≤ b` with `6 * 1000 * b < 2^32`, `spin_sleep_ms(b)` executes at
least as many `nop` iterations as `spin_sleep_ms(a)`. -/
theorem spin_sleep_ms_monotone (a b : Nat) (hab : a ≤ b) (hb : 6 * 1000 * b < WORD) :
    ∃ na nb : Nat, nop_iterations a = some na ∧ nop_iterations b = some nb ∧ na ≤ nb := by
  have ha : 6 * 1000 * a < WORD := lt_of_le_of_lt (Nat.mul_le_mul_left _ hab) hb
  exact ⟨6 * 1000 * a, 6 * 1000 * b, nop_iterations_of_small a ha,
    nop_iterations_of_small b hb, Nat.mul_le_mul_left _ hab⟩

theorem spin_sleep_ms_monotone_witness :
    ∃ na nb : Nat, nop_iterations 1 = some na ∧ nop_iterations 2 = some nb ∧ na ≤ nb :=
  spin_sleep_ms_monotone 1 2 (by decide) (by decide)

/-- C8, as stated, fails: for the 32-bit value 715828 the call
`spin_sleep_ms(715828)` executes 704 iterations, not `6 * 1000 * 715828`. -/
theorem spin_sleep_ms_count_wraps :
    715828 < WORD ∧
    nop_iterations 715828 = some 704 ∧
    nop_iterations 715828 ≠ some (6 * 1000 * 715828) := by
  have hb : nop_iterations 715828 = some 704 := by
    rw [nop_iterations_eq]; decide
  refine ⟨by decide, hb, ?_⟩
  rw [hb]
  decide

/-- C8, amended: for every `ms` with `6 * 1000 * ms < 2^32`, `spin_sleep_ms(ms)`
is `spin_sleep_us(1000 * ms)`, which returns after 6 `nop` iterations for each
of the `1000 * ms` microseconds, `6 * 1000 * ms` in total. -/
theorem spin_sleep_ms_nop_count (ms : Nat) (h : 6 * 1000 * ms < WORD) (m : Machine) :
    spin_sleep_ms ms m = spin_sleep_us (1000 * ms) m ∧
    spin_sleep_us (1000 * ms) m = some { m with nops := m.nops + 6 * (1000 * ms) } ∧
    spin_sleep_ms ms m = some { m with nops := m.nops + 6 * 1000 * ms } ∧
    nop_iterations ms = some (6 * 1000 * ms) := by
  have h2 : 6 * 1000 * ms < 2 ^ 32 := h
  have e1 : (ms * 1000) % WORD = 1000 * ms := by
    rw [Nat.mul_comm]; exact Nat.mod_eq_of_lt (by unfold WORD; omega)
  have e2 : (1000 * ms * 6) % WORD = 6 * (1000 * ms) := by
    rw [Nat.mul_comm]; exact Nat.mod_eq_of_lt (by unfold WORD; omega)
  have hus : spin_sleep_us (1000 * ms) m =
      some { m with nops := m.nops + 6 * (1000 * ms) } := by
    rw [spin_sleep_us_eq, e2]
  refine ⟨by rw [spin_sleep_ms, e1], hus, ?_, nop_iterations_of_small ms h⟩
  rw [spin_sleep_ms, e1, hus, Nat.mul_assoc]

theorem spin_sleep_ms_nop_count_witness :
    spin_sleep_ms 1000 Machine.reset = spin_sleep_us (1000 * 1000) Machine.reset ∧
    spin_sleep_us (1000 * 1000) Machine.reset =
      some { Machine.reset with nops := Machine.reset.nops + 6 * (1000 * 1000) } ∧
    spin_sleep_ms 1000 Machine.reset =
      some { Machine.reset with nops := Machine.reset.nops + 6 * 1000 * 1000 } ∧
    nop_iterations 1000 = some (6 * 1000 * 1000) :=
  spin_sleep_ms_nop_count 1000 (by decide) Machine.reset

/-- C10: for every `ms`, `spin_sleep_ms(ms)` returns, after exactly
`(6 * ((1000 * ms) mod 2^32)) mod 2^32` iterations of `nop`: as a function,
and step by step, where it is back in its caller after three steps for each
iteration and two more, its counter being `(k - 1) / 3`, at most that number,
after `k` steps. So `spin_sleep_ms(1000)` returns after 6000000 iterations and
an iteration of the loop of `kmain` is complete after `cycle_steps` steps. -/
theorem spin_sleep_ms_terminates (ms : Nat) (m : Machine) (ret : KLoc) :
    spin_sleep_ms ms m =
      some { m with nops := m.nops + (6 * ((1000 * ms) % 2 ^ 32)) % 2 ^ 32 } ∧
    nop_iterations ms = some ((6 * ((1000 * ms) % 2 ^ 32)) % 2 ^ 32) ∧
    run (3 * ((6 * ((1000 * ms) % 2 ^ 32)) % 2 ^ 32) + 2) ⟨Control.sleep_ms ret ms, m⟩ =
      some ⟨Control.kmain ret,
        { m with nops := m.nops + (6 * ((1000 * ms) % 2 ^ 32)) % 2 ^ 32 }⟩ ∧
    (∀ k, k ≤ 3 * ((6 * ((1000 * ms) % 2 ^ 32)) % 2 ^ 32) + 1 →
      run k ⟨Control.sleep_ms ret ms, m⟩ =
          some ⟨sleep_control ret ms k, { m with nops := m.nops + k / 3 }⟩ ∧
        (k - 1) / 3 ≤ (6 * ((1000 * ms) % 2 ^ 32)) % 2 ^ 32 ∧
        (k - 1) / 3 < WORD) ∧
    nop_iterations 1000 = some 6000000 ∧
    (∃ m1 : Machine,
      run cycle_steps ⟨Control.kmain KLoc.loop_test, m⟩ =
        some ⟨Control.kmain KLoc.loop_test, m1⟩ ∧
      m1.nops = m.nops + 2 * 6000000) := by
  refine ⟨spin_sleep_ms_eq ms m, nop_iterations_eq ms, ?_, fun k hk => ⟨?_, ?_, ?_⟩, ?_, ?_⟩
  · rw [run_sleep_ms_return, spin_sleep_ms_eq, Option.map_some']
  · exact run_sleep_ms ret ms m k hk
  · omega
  · have hW : (6 * ((1000 * ms) % 2 ^ 32)) % 2 ^ 32 < 2 ^ 32 := Nat.mod_lt _ (by decide)
    unfold WORD
    omega
  · rw [nop_iterations_eq]; decide
  · rw [run_loop_body, kmain_loop_body_eq, Option.map_some']
    exact ⟨_, rfl, rfl⟩

theorem spin_sleep_ms_terminates_witness :
    run 4 ⟨Control.sleep_ms KLoc.set_low 1, Machine.reset⟩ =
        some ⟨sleep_control KLoc.set_low 1 4,
          { Machine.reset with nops := Machine.reset.nops + 4 / 3 }⟩ ∧
      (4 - 1) / 3 ≤ (6 * ((1000 * 1) % 2 ^ 32)) % 2 ^ 32 ∧
      (4 - 1) / 3 < WORD :=
  (spin_sleep_ms_terminates 1 Machine.reset KLoc.set_low).2.2.2.1 4 (by decide)

end Blinky
